import Mathlib

/-!
Verification of the data-transform pipeline in `become_yukarin/dataset/dataset.py`.

A 2-D numpy array of shape `(rows, cols)` is embedded as a list of rows.
Feature-field arrays are time-major: row index is the frame (time) index.
Encoded tensors produced by `EncodeFeatureProcess` are feature-major: the
time axis is axis 1, i.e. the column index, matching `time_axis = 1` in the
padding, cropping and shape-align transforms.

A `numpy.nan` scalar standing for a whole absent field (the `defaultdict`
default used by `DistillateUsingFeatureProcess`, `DecodeFeatureProcess`)
is embedded as `none`; a present array as `some`.  Fatal conditions
(`assert` failures) are embedded as `none` results of `Option`-returning
calls.  Seeded draws of `numpy.random.RandomState(seed)` are embedded as an
explicit function argument from the seed and the exclusive bound to the
drawn value, so determinism of the seeded generator is definitional.
-/

abbrev Mat (α : Type) : Type := List (List α)

/-- Entry of a matrix at row t, column i, when in bounds. -/
def entry {α : Type} (m : Mat α) (t i : Nat) : Option α :=
  m[t]?.bind fun r => r[i]?

/-- Elementwise combination of two same-shaped matrices, as numpy broadcasting
of a binary ufunc over two arrays of one common shape. -/
def zip2 {α : Type} (f : α → α → α) (a b : Mat α) : Mat α :=
  List.zipWith (List.zipWith f) a b

/-- Elementwise map, as a unary numpy ufunc. -/
def mmap {α : Type} (f : α → α) (m : Mat α) : Mat α :=
  m.map (List.map f)

/-- The matrix is rectangular with every row of length w. -/
def Rect {α : Type} (m : Mat α) (w : Nat) : Prop :=
  ∀ r ∈ m, r.length = w

instance {α : Type} (m : Mat α) (w : Nat) : Decidable (Rect m w) :=
  List.decidableBAll _ m

/-- Shape along axis 1 of a rectangular matrix, numpy's `shape[1]`. -/
def colsLen {α : Type} : Mat α → Nat
  | [] => 0
  | r :: _ => r.length

/-- Column slice `a[:, bef:aft]`. -/
def sliceCols {α : Type} (m : Mat α) (bef aft : Nat) : Mat α :=
  m.map fun r => (r.take aft).drop bef

/-- Zero padding `numpy.pad(m, ((0, 0), (pre, post)), mode='constant')`. -/
def padCols {α : Type} [Zero α] (m : Mat α) (pre post : Nat) : Mat α :=
  m.map fun r => List.replicate pre 0 ++ r ++ List.replicate post 0

/-- The five field names of an AcousticFeature. -/
inductive FieldName : Type
  | f0
  | spectrogram
  | aperiodicity
  | mfcc
  | voiced
  deriving DecidableEq, Repr

/-- The feature bundle of `become_yukarin.data_struct.AcousticFeature`; a field
holding the `numpy.nan` scalar instead of an array is `none`.  The `voiced`
flag array is embedded with entries 0 and 1 standing for False and True. -/
structure AcousticFeature (α : Type) : Type where
  f0 : Option (Mat α)
  spectrogram : Option (Mat α)
  aperiodicity : Option (Mat α)
  mfcc : Option (Mat α)
  voiced : Option (Mat α)
  deriving DecidableEq, Repr

/-- Python `getattr(feature, name)`. -/
def AcousticFeature.getattr {α : Type} (d : AcousticFeature α) : FieldName → Option (Mat α)
  | .f0 => d.f0
  | .spectrogram => d.spectrogram
  | .aperiodicity => d.aperiodicity
  | .mfcc => d.mfcc
  | .voiced => d.voiced

/-- Field entry of a feature at frame t, column i. -/
def fentry {α : Type} (f : AcousticFeature α) (n : FieldName) (t i : Nat) : Option α :=
  (f.getattr n).bind fun m => entry m t i

/-- First binding for the key in an association list, `none` if absent. -/
def assocFind {α : Type} (assoc : List (FieldName × Option (Mat α))) (n : FieldName) :
    Option (Mat α) :=
  match assoc.find? (fun p => decide (p.1 = n)) with
  | some p => p.2
  | none => none

/-- Lookup in the dict built from an association list, where a later binding
for a key overwrites an earlier one (Python dict comprehension) and a missing
key yields the `defaultdict` default `numpy.nan`, i.e. `none`. -/
def lookupField {α : Type} (assoc : List (FieldName × Option (Mat α))) (n : FieldName) :
    Option (Mat α) :=
  assocFind assoc.reverse n

/-- Python `DistillateUsingFeatureProcess.__call__`: build the dict
`{t: getattr(feature, t) for t in targets}` with default nan and read the
five fields back out of it. -/
def DistillateUsingFeatureProcess.call {α : Type} (targets : List FieldName)
    (feature : AcousticFeature α) : AcousticFeature α :=
  let d := targets.map fun t => (t, feature.getattr t)
  { f0 := lookupField d .f0
    spectrogram := lookupField d .spectrogram
    aperiodicity := lookupField d .aperiodicity
    mfcc := lookupField d .mfcc
    voiced := lookupField d .voiced }

/-- Embedding of `numpy.concatenate(ms, axis=1)` for matrices with a common row count. -/
def concatCols {α : Type} : List (Mat α) → Mat α
  | [] => []
  | [m] => m
  | m :: ms => List.zipWith (fun r s => r ++ s) m (concatCols ms)

/-- Python `EncodeFeatureProcess.__call__`: concatenate the selected fields along
axis 1 and transpose.  A selected field that is absent is embedded as the
empty matrix (numpy would fail there; no claim selects an absent field). -/
def EncodeFeatureProcess.call {α : Type} (targets : List FieldName)
    (data : AcousticFeature α) : Mat α :=
  (concatCols (targets.map fun t => (data.getattr t).getD [])).transpose

/-- Python `DecodeFeatureProcess.__call__`: transpose back, check the feature-axis
length against the summed widths (`assert`, embedded as `none` on failure),
then build the dict from `zip(targets, [0] + lens[:-1], lens)` of column
slices with default nan. -/
def DecodeFeatureProcess.call {α : Type} (targets : List FieldName)
    (sizes : FieldName → Nat) (data : Mat α) : Option (AcousticFeature α) :=
  let dataT := data.transpose
  let lens := targets.map sizes
  if colsLen dataT = lens.sum then
    let befs := 0 :: lens.dropLast
    let d := (targets.zip (befs.zip lens)).map fun p =>
      (p.1, some (sliceCols dataT p.2.1 p.2.2))
    some
      { f0 := lookupField d .f0
        spectrogram := lookupField d .spectrogram
        aperiodicity := lookupField d .aperiodicity
        mfcc := lookupField d .mfcc
        voiced := lookupField d .voiced }
  else
    none

/-- Python `RandomPaddingProcess.__call__` with `time_axis = 1`.  `rand seed n`
embeds `numpy.random.RandomState(seed).randint(n)`.  The `assert not test`
is the `none` branch. -/
def RandomPaddingProcess.call {α : Type} [Zero α] (min_size : Nat)
    (rand : Nat → Nat → Nat) (data : Mat α) (seed : Nat) (test : Bool) :
    Option (Mat α) :=
  if test then none
  else if min_size ≤ colsLen data then some data
  else
    let pre := rand seed (min_size - colsLen data + 1)
    let post := min_size - pre
    some (padCols data pre post)

/-- Python `RandomCropProcess.__call__` with `time_axis = 1`.  Both `assert`s are
embedded as `none` branches; the returned piece of
`numpy.split(data, [start, start + crop_size], axis=1)` is the column slice. -/
def RandomCropProcess.call {α : Type} (crop_size : Nat)
    (rand : Nat → Nat → Nat) (data : Mat α) (seed : Nat) (test : Bool) :
    Option (Mat α) :=
  if test then none
  else
    let len_time := colsLen data
    if len_time < crop_size then none
    else
      let start := rand seed (len_time - crop_size + 1)
      some (sliceCols data start (start + crop_size))

/-- Python `FirstCropProcess.__call__`: the middle piece of
`numpy.split(data, [0, crop_size], axis=1)`, i.e. `data[:, 0:crop_size]`. -/
def FirstCropProcess.call {α : Type} (crop_size : Nat) (data : Mat α) : Mat α :=
  sliceCols data 0 crop_size

/-- Python `AddNoiseProcess.__call__` on rational entries: one global unseeded
normal draw `gdraw` scaled by `p_global`, an elementwise draw matrix `ldraw`
scaled by `p_local`; `assert not test` is the `none` branch. -/
def AddNoiseProcess.call (p_global p_local : ℚ) (gdraw : ℚ) (ldraw : Mat ℚ)
    (data : Mat ℚ) (test : Bool) : Option (Mat ℚ) :=
  if test then none
  else some (zip2 (fun x l => x + gdraw * p_global + l * p_local) data ldraw)

/-- The working mapping with keys input, target, mask consumed by
`ShapeAlignProcess`. -/
structure TDict (α : Type) : Type where
  input : Mat α
  target : Mat α
  mask : Mat α
  deriving DecidableEq, Repr

/-- The value computation of `ShapeAlignProcess.__call__`: right-pad each
of the three tensors along axis 1 with zeros to the maximum length. -/
def alignDict {α : Type} [Zero α] (d : TDict α) : TDict α :=
  let m := max (colsLen d.input) (max (colsLen d.target) (colsLen d.mask))
  { input := padCols d.input 0 (m - colsLen d.input)
    target := padCols d.target 0 (m - colsLen d.target)
    mask := padCols d.mask 0 (m - colsLen d.mask) }

/-- Python `ShapeAlignProcess.__call__` with Python object semantics made explicit:
the store maps dict addresses to dict values; the call reads the dict at the
given address, writes the three keys back into that same dict, and returns
the address it was given (the source returns `data` itself after the key
assignments, not a copy). -/
def shapeAlignCall {α : Type} [Zero α] (store : List (TDict α)) (addr : Nat) :
    List (TDict α) × Nat :=
  match store[addr]? with
  | some d => (store.set addr (alignDict d), addr)
  | none => (store, addr)

/-- Greatest k at most the fuel with k * k at most n; structural recursion so
that concrete values reduce. -/
def natSqrtDown : Nat → Nat → Nat
  | 0, _ => 0
  | k + 1, n => if (k + 1) * (k + 1) ≤ n then k + 1 else natSqrtDown k n

/-- Embedding of `numpy.sqrt` on a rational, exact when the value is a square of a
rational; the round-trip theorem only uses it through the hypothesis that it
squares back to its argument. -/
def ratSqrt (q : ℚ) : ℚ :=
  (natSqrtDown q.num.toNat q.num.toNat : ℚ) / (natSqrtDown q.den q.den : ℚ)

/-- One field of `AcousticFeatureNormalizeProcess`:
`(data - mean) / numpy.sqrt(var)`. -/
def normField (x m v : Option (Mat ℚ)) : Option (Mat ℚ) := do
  let xm ← x
  let mm ← m
  let vm ← v
  pure (zip2 (fun a b => a / b) (zip2 (fun a b => a - b) xm mm) (mmap ratSqrt vm))

/-- One field of `AcousticFeatureDenormalizeProcess`:
`data * numpy.sqrt(var) + mean`. -/
def denormField (x m v : Option (Mat ℚ)) : Option (Mat ℚ) := do
  let xm ← x
  let mm ← m
  let vm ← v
  pure (zip2 (fun a b => a + b) (zip2 (fun a b => a * b) xm (mmap ratSqrt vm)) mm)

/-- Python `f0[~data.voiced] = 0`: zero the entries at frames whose voiced flag is 0. -/
def zeroUnvoiced (x vcd : Mat ℚ) : Mat ℚ :=
  zip2 (fun a w => if w = 0 then 0 else a) x vcd

/-- The f0 branch of normalization: the elementwise formula followed by the
in-place zeroing of unvoiced frames on the fresh array. -/
def normF0 (xo mo vo wo : Option (Mat ℚ)) : Option (Mat ℚ) := do
  let f0n ← normField xo mo vo
  let vcd ← wo
  pure (zeroUnvoiced f0n vcd)

/-- The f0 branch of denormalization: the elementwise inverse formula
followed by the same zeroing of unvoiced frames. -/
def denormF0 (xo mo vo wo : Option (Mat ℚ)) : Option (Mat ℚ) := do
  let f0d ← denormField xo mo vo
  let vcd ← wo
  pure (zeroUnvoiced f0d vcd)

/-- Python `AcousticFeatureNormalizeProcess.__call__`. -/
def AcousticFeatureNormalizeProcess.call (mean var data : AcousticFeature ℚ) :
    AcousticFeature ℚ :=
  { f0 := normF0 data.f0 mean.f0 var.f0 data.voiced
    spectrogram := normField data.spectrogram mean.spectrogram var.spectrogram
    aperiodicity := normField data.aperiodicity mean.aperiodicity var.aperiodicity
    mfcc := normField data.mfcc mean.mfcc var.mfcc
    voiced := data.voiced }

/-- Python `AcousticFeatureDenormalizeProcess.__call__`. -/
def AcousticFeatureDenormalizeProcess.call (mean var data : AcousticFeature ℚ) :
    AcousticFeature ℚ :=
  { f0 := denormF0 data.f0 mean.f0 var.f0 data.voiced
    spectrogram := denormField data.spectrogram mean.spectrogram var.spectrogram
    aperiodicity := denormField data.aperiodicity mean.aperiodicity var.aperiodicity
    mfcc := denormField data.mfcc mean.mfcc var.mfcc
    voiced := data.voiced }

/-- Denormalize after normalize with one mean and variance pair. -/
def normThenDenorm (mean var d : AcousticFeature ℚ) : AcousticFeature ℚ :=
  AcousticFeatureDenormalizeProcess.call mean var
    (AcousticFeatureNormalizeProcess.call mean var d)

/-- Every entry of the matrix is positive with an exact rational square root. -/
def posSqrtMat (m : Mat ℚ) : Prop :=
  ∀ r ∈ m, ∀ q ∈ r, 0 < q ∧ ratSqrt q * ratSqrt q = q

/-- posSqrtMat lifted to an optional field. -/
def posSqrtOpt : Option (Mat ℚ) → Prop
  | some m => posSqrtMat m
  | none => True

/-- Fisher and Yates swap step `x[i], x[j] = x[j], x[i]` on a list. -/
def swapL {α : Type} (l : List α) (i j : Nat) : List α :=
  match l[i]?, l[j]? with
  | some a, some b => (l.set i b).set j a
  | _, _ => l

/-- The loop of `numpy.random.RandomState(seed).shuffle`: for i descending
from n - 1 to 1 swap position i with a drawn position j in [0, i]; the raw
draw at step i is `rand i`, reduced modulo i + 1. -/
def fyAux {α : Type} (rand : Nat → Nat) : Nat → List α → List α
  | 0, l => l
  | i + 1, l => fyAux rand i (swapL l (i + 1) (rand (i + 1) % (i + 2)))

/-- Embedding of `numpy.random.RandomState(seed).shuffle(pairs)` as a pure function of the
draw stream. -/
def npShuffle {α : Type} (rand : Nat → Nat) (l : List α) : List α :=
  fyAux rand (l.length - 1) l

/-- A path pair `(input_path, target_path)`; paths abstracted to numbers. -/
abbrev PathPair : Type := Nat × Nat

/-- The split at the end of `create`: shuffle the pairs with the seeded
generator, then `train = pairs[num_test:]`, `test = pairs[:num_test]`,
`train_eval = train[:num_test]`. -/
def createSplit (rand : Nat → Nat) (pairs : List PathPair) (num_test : Nat) :
    List PathPair × List PathPair × List PathPair :=
  let shuffled := npShuffle rand pairs
  (shuffled.drop num_test, shuffled.take num_test,
    (shuffled.drop num_test).take num_test)

/-- Two-frame example feature: frame 0 voiced, frame 1 unvoiced. -/
def exData : AcousticFeature ℚ :=
  { f0 := some [[3], [7]]
    spectrogram := some [[2], [4]]
    aperiodicity := some [[2], [4]]
    mfcc := some [[2], [4]]
    voiced := some [[1], [0]] }

/-- Example mean feature matching the shape of exData. -/
def exMean : AcousticFeature ℚ :=
  { f0 := some [[1], [1]]
    spectrogram := some [[1], [1]]
    aperiodicity := some [[1], [1]]
    mfcc := some [[1], [1]]
    voiced := some [[1], [0]] }

/-- Example variance feature with entries 1, whose square root is exact. -/
def exVar : AcousticFeature ℚ :=
  { f0 := some [[1], [1]]
    spectrogram := some [[1], [1]]
    aperiodicity := some [[1], [1]]
    mfcc := some [[1], [1]]
    voiced := some [[1], [0]] }

/-- Example feature for the encode and decode round trip: f0 of width 1,
mfcc of width 2, one frame. -/
def exEncFeature : AcousticFeature ℤ :=
  { f0 := some [[5]]
    spectrogram := none
    aperiodicity := none
    mfcc := some [[1, 2]]
    voiced := some [[1]] }

/-- Width mapping consistent with exEncFeature. -/
def exSizes : FieldName → Nat
  | .f0 => 1
  | .mfcc => 2
  | _ => 0

/-! General lemmas about the matrix embedding. -/

theorem getElem?_zipWith_opt {α β γ : Type} (f : α → β → γ) (l₁ : List α) (l₂ : List β)
    (i : Nat) : (List.zipWith f l₁ l₂)[i]? = Option.map₂ f l₁[i]? l₂[i]? := by
  rw [List.getElem?_zipWith']
  cases l₁[i]? <;> cases l₂[i]? <;> rfl

theorem entry_zip2 {α : Type} (f : α → α → α) (a b : Mat α) (t i : Nat) :
    entry (zip2 f a b) t i = Option.map₂ f (entry a t i) (entry b t i) := by
  unfold entry zip2
  rw [getElem?_zipWith_opt]
  cases a[t]? <;> cases b[t]? <;> simp [Option.map₂, getElem?_zipWith_opt]

theorem entry_mmap {α : Type} (f : α → α) (m : Mat α) (t i : Nat) :
    entry (mmap f m) t i = (entry m t i).map f := by
  unfold entry mmap
  rw [List.getElem?_map]
  cases m[t]? <;> simp [List.getElem?_map]

theorem mem_of_entry {α : Type} {m : Mat α} {t i : Nat} {x : α}
    (h : entry m t i = some x) : ∃ r ∈ m, x ∈ r := by
  unfold entry at h
  cases hm : m[t]? with
  | none => rw [hm] at h; exact absurd h (by simp)
  | some r =>
    rw [hm] at h
    simp only [Option.some_bind] at h
    obtain ⟨hlt, he⟩ := List.getElem?_eq_some.mp hm
    obtain ⟨hlt2, he2⟩ := List.getElem?_eq_some.mp h
    exact ⟨r, he ▸ m.getElem_mem hlt, he2 ▸ r.getElem_mem hlt2⟩

theorem colsLen_of_rect {α : Type} {m : Mat α} {w : Nat} (h : Rect m w) (hne : m ≠ []) :
    colsLen m = w := by
  cases m with
  | nil => exact absurd rfl hne
  | cons r rs => exact h r (List.mem_cons_self r rs)

theorem assocFind_map {α : Type} (l : List FieldName) (g : FieldName → Option (Mat α))
    (n : FieldName) :
    assocFind (l.map fun t => (t, g t)) n = if n ∈ l then g n else none := by
  induction l with
  | nil => rfl
  | cons t ts ih =>
    rw [List.map_cons]
    by_cases ht : t = n
    · subst ht
      unfold assocFind
      rw [List.find?_cons_of_pos _ (by simp)]
      simp
    · unfold assocFind
      rw [List.find?_cons_of_neg _ (by simp [ht])]
      unfold assocFind at ih
      rw [ih]
      by_cases hn : n ∈ ts
      · rw [if_pos hn, if_pos (List.mem_cons_of_mem t hn)]
      · rw [if_neg hn,
          if_neg (by simp only [List.mem_cons, not_or]; exact ⟨fun h => ht h.symm, hn⟩)]

theorem lookupField_map {α : Type} (l : List FieldName) (g : FieldName → Option (Mat α))
    (n : FieldName) :
    lookupField (l.map fun t => (t, g t)) n = if n ∈ l then g n else none := by
  unfold lookupField
  rw [← List.map_reverse, assocFind_map]
  simp [List.mem_reverse]

theorem rect_pad_right {α : Type} [Zero α] {m : Mat α} {w v : Nat} (h : Rect m w)
    (hwv : w ≤ v) : Rect (m.map fun r => r ++ List.replicate (v - w) 0) v := by
  intro r hr
  obtain ⟨s, hs, rfl⟩ := List.mem_map.mp hr
  rw [List.length_append, List.length_replicate, h s hs, Nat.add_sub_cancel' hwv]

/-! The claims. -/

/-- Claim C4: calling a stochastic transform, namely random padding, random
cropping or additive noise, with the test flag set fails with the assertion
error, embedded as the none result, for every input, seed and draw. -/
theorem testmode_stochastic_fails {α : Type} [Zero α] (min_size crop_size : Nat)
    (rand : Nat → Nat → Nat) (data : Mat α) (seed : Nat)
    (p_global p_local gdraw : ℚ) (ldraw qdata : Mat ℚ) :
    RandomPaddingProcess.call min_size rand data seed true = none ∧
    RandomCropProcess.call crop_size rand data seed true = none ∧
    AddNoiseProcess.call p_global p_local gdraw ldraw qdata true = none :=
  ⟨rfl, rfl, rfl⟩

/-- Claim C8: distillation returns a feature whose selected fields equal the
input's fields and whose unselected fields hold the nan default. -/
theorem distillate_selects_targets {α : Type} (targets : List FieldName)
    (f : AcousticFeature α) (n : FieldName) :
    (DistillateUsingFeatureProcess.call targets f).getattr n =
      if n ∈ targets then f.getattr n else none := by
  cases n <;> exact lookupField_map targets f.getattr _

/-- Claim C10: first crop never fails; it keeps the first crop_size columns,
so the output time length is the minimum of the input length and crop_size,
entries below crop_size are preserved, and a short input passes unchanged. -/
theorem firstCrop_spec {α : Type} (crop_size : Nat) (data : Mat α) (L : Nat)
    (hrect : Rect data L) :
    Rect (FirstCropProcess.call crop_size data) (min L crop_size) ∧
    (∀ t i, i < crop_size →
      entry (FirstCropProcess.call crop_size data) t i = entry data t i) ∧
    (L ≤ crop_size → FirstCropProcess.call crop_size data = data) := by
  refine ⟨?_, ?_, ?_⟩
  · intro r hr
    unfold FirstCropProcess.call sliceCols at hr
    obtain ⟨s, hs, rfl⟩ := List.mem_map.mp hr
    rw [List.drop_zero, List.length_take, hrect s hs, Nat.min_comm]
  · intro t i hi
    unfold FirstCropProcess.call sliceCols entry
    rw [List.getElem?_map]
    cases hd : data[t]? with
    | none => rfl
    | some r =>
      simp only [Option.map_some', Option.some_bind]
      rw [List.drop_zero, List.getElem?_take, if_pos hi]
  · intro hL
    unfold FirstCropProcess.call sliceCols
    have hrows : ∀ r ∈ data, (r.take crop_size).drop 0 = r := by
      intro r hr
      rw [List.drop_zero, List.take_of_length_le (by rw [hrect r hr]; exact hL)]
    calc data.map (fun r => (r.take crop_size).drop 0)
        = data.map id := List.map_congr_left hrows
      _ = data := List.map_id data

/-- Witness for firstCrop_spec at a one-row tensor of length 3 cropped to 2. -/
theorem firstCrop_spec_witness :
    Rect ([[1, 2, 3]] : Mat ℤ) 3 ∧
    (Rect (FirstCropProcess.call 2 ([[1, 2, 3]] : Mat ℤ)) (min 3 2) ∧
     (∀ t i, i < 2 →
       entry (FirstCropProcess.call 2 ([[1, 2, 3]] : Mat ℤ)) t i
         = entry ([[1, 2, 3]] : Mat ℤ) t i) ∧
     (3 ≤ 2 → FirstCropProcess.call 2 ([[1, 2, 3]] : Mat ℤ) = [[1, 2, 3]])) :=
  ⟨by decide, firstCrop_spec 2 [[1, 2, 3]] 3 (by decide)⟩

/-- Claim C7: shape alignment pads all three tensors on the right with zeros
to the maximum time length among the three, leaving content left-justified. -/
theorem shapeAlign_pads_to_max {α : Type} [Zero α] (d : TDict α) (a b c : Nat)
    (ha : Rect d.input a) (hb : Rect d.target b) (hc : Rect d.mask c)
    (hna : d.input ≠ []) (hnb : d.target ≠ []) (hnc : d.mask ≠ []) :
    Rect (alignDict d).input (max a (max b c)) ∧
    Rect (alignDict d).target (max a (max b c)) ∧
    Rect (alignDict d).mask (max a (max b c)) ∧
    (alignDict d).input
        = d.input.map (fun r => r ++ List.replicate (max a (max b c) - a) 0) ∧
    (alignDict d).target
        = d.target.map (fun r => r ++ List.replicate (max a (max b c) - b) 0) ∧
    (alignDict d).mask
        = d.mask.map (fun r => r ++ List.replicate (max a (max b c) - c) 0) := by
  have hca := colsLen_of_rect ha hna
  have hcb := colsLen_of_rect hb hnb
  have hcc := colsLen_of_rect hc hnc
  have ei : (alignDict d).input
      = d.input.map (fun r => r ++ List.replicate (max a (max b c) - a) 0) := by
    simp only [alignDict, padCols, hca, hcb, hcc, List.replicate_zero, List.nil_append]
  have et : (alignDict d).target
      = d.target.map (fun r => r ++ List.replicate (max a (max b c) - b) 0) := by
    simp only [alignDict, padCols, hca, hcb, hcc, List.replicate_zero, List.nil_append]
  have em : (alignDict d).mask
      = d.mask.map (fun r => r ++ List.replicate (max a (max b c) - c) 0) := by
    simp only [alignDict, padCols, hca, hcb, hcc, List.replicate_zero, List.nil_append]
  refine ⟨?_, ?_, ?_, ei, et, em⟩
  · rw [ei]; exact rect_pad_right ha (Nat.le_max_left a (max b c))
  · rw [et]
    exact rect_pad_right hb (Nat.le_trans (Nat.le_max_left b c) (Nat.le_max_right a _))
  · rw [em]
    exact rect_pad_right hc (Nat.le_trans (Nat.le_max_right b c) (Nat.le_max_right a _))

/-- Witness for shapeAlign_pads_to_max at three one-row tensors of time
lengths 1, 2 and 1. -/
theorem shapeAlign_pads_to_max_witness :
    (Rect (([[1]] : Mat ℤ)) 1 ∧ Rect ([[1, 2]] : Mat ℤ) 2 ∧ Rect ([[3]] : Mat ℤ) 1) ∧
    (Rect (alignDict (⟨[[1]], [[1, 2]], [[3]]⟩ : TDict ℤ)).input (max 1 (max 2 1)) ∧
     Rect (alignDict (⟨[[1]], [[1, 2]], [[3]]⟩ : TDict ℤ)).target (max 1 (max 2 1)) ∧
     Rect (alignDict (⟨[[1]], [[1, 2]], [[3]]⟩ : TDict ℤ)).mask (max 1 (max 2 1)) ∧
     (alignDict (⟨[[1]], [[1, 2]], [[3]]⟩ : TDict ℤ)).input
         = ([[1]] : Mat ℤ).map (fun r => r ++ List.replicate (max 1 (max 2 1) - 1) 0) ∧
     (alignDict (⟨[[1]], [[1, 2]], [[3]]⟩ : TDict ℤ)).target
         = ([[1, 2]] : Mat ℤ).map (fun r => r ++ List.replicate (max 1 (max 2 1) - 2) 0) ∧
     (alignDict (⟨[[1]], [[1, 2]], [[3]]⟩ : TDict ℤ)).mask
         = ([[3]] : Mat ℤ).map (fun r => r ++ List.replicate (max 1 (max 2 1) - 1) 0)) :=
  ⟨⟨by decide, by decide, by decide⟩,
    shapeAlign_pads_to_max ⟨[[1]], [[1, 2]], [[3]]⟩ 1 2 1 (by decide) (by decide)
      (by decide) (by decide) (by decide) (by decide)⟩

/-- Claim C5: on a tensor of time length at least crop_size, random crop
returns the contiguous column slice of exactly crop_size starting at the
seeded draw, which lies in the feasible range; on a shorter tensor the
assertion fails.  Identity of repeated calls with one seed is definitional,
the seeded generator being a function of the seed. -/
theorem randomCrop_spec {α : Type} (crop_size : Nat) (rand : Nat → Nat → Nat)
    (data : Mat α) (seed L : Nat) (hrect : Rect data L) (hne : data ≠ [])
    (hrand : ∀ n, 0 < n → rand seed n < n) :
    (crop_size ≤ L →
      RandomCropProcess.call crop_size rand data seed false
          = some (sliceCols data (rand seed (L - crop_size + 1))
              (rand seed (L - crop_size + 1) + crop_size)) ∧
      rand seed (L - crop_size + 1) + crop_size ≤ L ∧
      Rect (sliceCols data (rand seed (L - crop_size + 1))
          (rand seed (L - crop_size + 1) + crop_size)) crop_size) ∧
    (L < crop_size →
      RandomCropProcess.call crop_size rand data seed false = none) := by
  have hcl := colsLen_of_rect hrect hne
  constructor
  · intro hcrop
    have hlt : ¬(L < crop_size) := not_lt.mpr hcrop
    have hstart : rand seed (L - crop_size + 1) < L - crop_size + 1 :=
      hrand _ (Nat.succ_pos _)
    have hbound : rand seed (L - crop_size + 1) + crop_size ≤ L := by
      have := Nat.lt_succ_iff.mp hstart
      omega
    refine ⟨?_, hbound, ?_⟩
    · simp [RandomCropProcess.call, hcl, hlt]
    · intro r hr
      obtain ⟨s, hs, rfl⟩ := List.mem_map.mp hr
      rw [List.length_drop, List.length_take, hrect s hs]
      omega
  · intro hlt
    simp [RandomCropProcess.call, hcl, hlt]

/-- Witness for randomCrop_spec: a 2 by 3 tensor cropped to width 2 with the
constant-zero draw. -/
theorem randomCrop_spec_witness :
    (Rect ([[1, 2, 3], [4, 5, 6]] : Mat ℤ) 3 ∧
     ([[1, 2, 3], [4, 5, 6]] : Mat ℤ) ≠ [] ∧
     ∀ n, 0 < n → (fun (_ _ : Nat) => 0) 0 n < n) ∧
    ((2 ≤ 3 →
      RandomCropProcess.call 2 (fun _ _ => 0) ([[1, 2, 3], [4, 5, 6]] : Mat ℤ) 0 false
          = some (sliceCols ([[1, 2, 3], [4, 5, 6]] : Mat ℤ) ((fun (_ _ : Nat) => 0) 0 (3 - 2 + 1))
              ((fun (_ _ : Nat) => 0) 0 (3 - 2 + 1) + 2)) ∧
      (fun (_ _ : Nat) => 0) 0 (3 - 2 + 1) + 2 ≤ 3 ∧
      Rect (sliceCols ([[1, 2, 3], [4, 5, 6]] : Mat ℤ) ((fun (_ _ : Nat) => 0) 0 (3 - 2 + 1))
          ((fun (_ _ : Nat) => 0) 0 (3 - 2 + 1) + 2)) 2) ∧
     (3 < 2 →
      RandomCropProcess.call 2 (fun _ _ => 0) ([[1, 2, 3], [4, 5, 6]] : Mat ℤ) 0 false = none)) :=
  ⟨⟨by decide, by decide, fun _ hn => hn⟩,
    randomCrop_spec 2 (fun _ _ => 0) [[1, 2, 3], [4, 5, 6]] 0 3 (by decide) (by decide)
      (fun _ hn => hn)⟩

/-- Claim C2, the code at a failing input: with min_size 3, a one-row tensor
of time length 2 and leading draw 0, the result has time length 5, namely
the input length plus min_size, because the trailing pad is computed as
min_size - pre instead of min_size - length - pre. -/
theorem randomPadding_output_exceeds_min :
    RandomPaddingProcess.call 3 (fun _ _ => 0) ([[3, 4]] : Mat ℤ) 0 false
        = some [[3, 4, 0, 0, 0]] ∧
    (RandomPaddingProcess.call 3 (fun _ _ => 0) ([[3, 4]] : Mat ℤ) 0 false).map colsLen
        ≠ some 3 :=
  ⟨by decide, by decide⟩

/-- Claim C1, the code at a failing input: encoding the f0 and mfcc fields
of widths 1 and 2 and decoding with the same ordered targets and widths
yields mfcc of width 1, the column slice from 1 to 2, instead of the
original slice from 1 to 3, so the round trip fails on a selected field. -/
theorem decode_encode_not_roundtrip :
    DecodeFeatureProcess.call [FieldName.f0, FieldName.mfcc] exSizes
        (EncodeFeatureProcess.call [FieldName.f0, FieldName.mfcc] exEncFeature)
      = some { f0 := some [[5]], spectrogram := none, aperiodicity := none,
               mfcc := some [[1]], voiced := none } ∧
    exEncFeature.mfcc = some [[1, 2]] ∧
    (DecodeFeatureProcess.call [FieldName.f0, FieldName.mfcc] exSizes
        (EncodeFeatureProcess.call [FieldName.f0, FieldName.mfcc] exEncFeature)).map
        (fun f => f.mfcc) ≠ some exEncFeature.mfcc :=
  ⟨by decide, by decide, by decide⟩

/-- Claim C6 counterexample: shape alignment applied to the mapping stored
at address 0 changes the value stored at that address, and hands back the
same address instead of a new object. -/
theorem shapeAlign_not_side_effect_free :
    (shapeAlignCall ([⟨[[1]], [[1, 2]], [[3]]⟩] : List (TDict ℤ)) 0).1[0]?
        ≠ some (⟨[[1]], [[1, 2]], [[3]]⟩ : TDict ℤ) ∧
    (shapeAlignCall ([⟨[[1]], [[1, 2]], [[3]]⟩] : List (TDict ℤ)) 0).2 = 0 :=
  ⟨by decide, by decide⟩

/-- Claim C6 amended: shape alignment is not side-effect-free on its input
mapping; it rebinds the three keys of the mapping at the given address to
the freshly padded tensors and returns that same address, leaving every
other address unchanged.  The tensors themselves are fresh values. -/
theorem shapeAlign_mutates_in_place {α : Type} [Zero α] (store : List (TDict α))
    (addr : Nat) (d : TDict α) (h : store[addr]? = some d) :
    (shapeAlignCall store addr).2 = addr ∧
    (shapeAlignCall store addr).1[addr]? = some (alignDict d) ∧
    ∀ j, j ≠ addr → (shapeAlignCall store addr).1[j]? = store[j]? := by
  have hlt : addr < store.length := (List.getElem?_eq_some.mp h).1
  have hcall : shapeAlignCall store addr = (store.set addr (alignDict d), addr) := by
    unfold shapeAlignCall
    rw [h]
  rw [hcall]
  refine ⟨rfl, ?_, ?_⟩
  · exact List.getElem?_set_eq_of_lt (alignDict d) hlt
  · intro j hj
    exact List.getElem?_set_ne (Ne.symm hj)

/-- Witness for shapeAlign_mutates_in_place at a two-element store. -/
theorem shapeAlign_mutates_in_place_witness :
    ([⟨[[1]], [[1, 2]], [[3]]⟩, ⟨[[7]], [[7]], [[7]]⟩] : List (TDict ℤ))[0]?
        = some (⟨[[1]], [[1, 2]], [[3]]⟩ : TDict ℤ) ∧
    ((shapeAlignCall ([⟨[[1]], [[1, 2]], [[3]]⟩, ⟨[[7]], [[7]], [[7]]⟩] : List (TDict ℤ)) 0).2
        = 0 ∧
     (shapeAlignCall ([⟨[[1]], [[1, 2]], [[3]]⟩, ⟨[[7]], [[7]], [[7]]⟩] : List (TDict ℤ)) 0).1[0]?
        = some (alignDict ⟨[[1]], [[1, 2]], [[3]]⟩) ∧
     ∀ j, j ≠ 0 →
       (shapeAlignCall ([⟨[[1]], [[1, 2]], [[3]]⟩, ⟨[[7]], [[7]], [[7]]⟩] : List (TDict ℤ)) 0).1[j]?
          = ([⟨[[1]], [[1, 2]], [[3]]⟩, ⟨[[7]], [[7]], [[7]]⟩] : List (TDict ℤ))[j]?) :=
  ⟨by decide, shapeAlign_mutates_in_place _ 0 _ (by decide)⟩

theorem cons_set_perm {α : Type} (t : List α) (m : Nat) (a b : α)
    (h : t[m]? = some b) : (b :: t.set m a).Perm (a :: t) := by
  induction t generalizing m with
  | nil => simp at h
  | cons c ts ih =>
    cases m with
    | zero =>
      simp only [List.getElem?_cons_zero, Option.some_inj] at h
      subst h
      simpa only [List.set_cons_zero] using List.Perm.swap a c ts
    | succ m =>
      simp only [List.getElem?_cons_succ] at h
      rw [List.set_cons_succ]
      exact (List.Perm.swap c b (ts.set m a)).trans
        ((List.Perm.cons c (ih m h)).trans (List.Perm.swap a c ts))

theorem swapL_perm {α : Type} (l : List α) (i j : Nat) : (swapL l i j).Perm l := by
  induction l generalizing i j with
  | nil => exact List.Perm.refl _
  | cons c ts ih =>
    cases i with
    | zero =>
      cases j with
      | zero =>
        simp only [swapL, List.getElem?_cons_zero, List.set_cons_zero]
        exact List.Perm.refl _
      | succ j =>
        cases hj : ts[j]? with
        | none =>
          simp only [swapL, List.getElem?_cons_zero, List.getElem?_cons_succ, hj]
          exact List.Perm.refl _
        | some b =>
          simp only [swapL, List.getElem?_cons_zero, List.getElem?_cons_succ, hj,
            List.set_cons_zero, List.set_cons_succ]
          exact cons_set_perm ts j c b hj
    | succ i =>
      cases j with
      | zero =>
        cases hi : ts[i]? with
        | none =>
          simp only [swapL, List.getElem?_cons_zero, List.getElem?_cons_succ, hi]
          exact List.Perm.refl _
        | some a =>
          simp only [swapL, List.getElem?_cons_zero, List.getElem?_cons_succ, hi,
            List.set_cons_zero, List.set_cons_succ]
          exact cons_set_perm ts i c a hi
      | succ j =>
        cases hi : ts[i]? with
        | none =>
          simp only [swapL, List.getElem?_cons_succ, hi]
          exact List.Perm.refl _
        | some a =>
          cases hj : ts[j]? with
          | none =>
            simp only [swapL, List.getElem?_cons_succ, hi, hj]
            exact List.Perm.refl _
          | some b =>
            have h2 : swapL ts i j = (ts.set i b).set j a := by
              simp only [swapL, hi, hj]
            simp only [swapL, List.getElem?_cons_succ, hi, hj, List.set_cons_succ]
            rw [← h2]
            exact List.Perm.cons c (ih i j)

theorem fyAux_perm {α : Type} (rand : Nat → Nat) :
    ∀ (k : Nat) (l : List α), (fyAux rand k l).Perm l
  | 0, l => List.Perm.refl l
  | k + 1, l =>
    (fyAux_perm rand k (swapL l (k + 1) (rand (k + 1) % (k + 2)))).trans
      (swapL_perm l (k + 1) (rand (k + 1) % (k + 2)))

theorem npShuffle_perm {α : Type} (rand : Nat → Nat) (l : List α) :
    (npShuffle rand l).Perm l :=
  fyAux_perm rand (l.length - 1) l

/-- Claim C9 counterexample: with a duplicated path pair and num_test 1,
the duplicate lands in both the train and the test part of the split, so
the train and test path sets are not disjoint. -/
theorem createSplit_duplicate_overlap :
    (0, 0) ∈ (createSplit (fun _ => 0) [(0, 0), (0, 0)] 1).1 ∧
    (0, 0) ∈ (createSplit (fun _ => 0) [(0, 0), (0, 0)] 1).2.1 :=
  ⟨by decide, by decide⟩

/-- Claim C9 amended: for pairwise distinct path pairs the seeded split is a
function of the draws, train and test are disjoint, together they exhaust the
pairs, the test part has exactly num_test elements when enough pairs exist,
and the evaluation part is the first num_test elements of the train part. -/
theorem createSplit_spec (rand : Nat → Nat) (pairs : List PathPair) (nt : Nat)
    (hnd : pairs.Nodup) :
    (∀ p ∈ (createSplit rand pairs nt).1, p ∉ (createSplit rand pairs nt).2.1) ∧
    (∀ p, p ∈ pairs ↔
      p ∈ (createSplit rand pairs nt).1 ∨ p ∈ (createSplit rand pairs nt).2.1) ∧
    (nt ≤ pairs.length → (createSplit rand pairs nt).2.1.length = nt) ∧
    (createSplit rand pairs nt).2.2 = (createSplit rand pairs nt).1.take nt := by
  have hperm : (npShuffle rand pairs).Perm pairs := npShuffle_perm rand pairs
  have hsn : (npShuffle rand pairs).Nodup := hperm.nodup_iff.mpr hnd
  simp only [createSplit]
  refine ⟨?_, ?_, ?_, trivial⟩
  · intro p hp hpt
    exact List.disjoint_take_drop hsn (Nat.le_refl nt) hpt hp
  · intro p
    constructor
    · intro hp
      have hs : p ∈ npShuffle rand pairs := hperm.mem_iff.mpr hp
      rw [← List.take_append_drop nt (npShuffle rand pairs)] at hs
      rcases List.mem_append.mp hs with h | h
      · exact Or.inr h
      · exact Or.inl h
    · rintro (h | h)
      · exact hperm.mem_iff.mp (List.mem_of_mem_drop h)
      · exact hperm.mem_iff.mp (List.mem_of_mem_take h)
  · intro hle
    rw [List.length_take, hperm.length_eq]
    exact Nat.min_eq_left hle

/-- Witness for createSplit_spec at three distinct pairs with one test pair. -/
theorem createSplit_spec_witness :
    ([(1, 2), (3, 4), (5, 6)] : List PathPair).Nodup ∧
    ((∀ p ∈ (createSplit (fun _ => 0) [(1, 2), (3, 4), (5, 6)] 1).1,
        p ∉ (createSplit (fun _ => 0) [(1, 2), (3, 4), (5, 6)] 1).2.1) ∧
     (∀ p, p ∈ ([(1, 2), (3, 4), (5, 6)] : List PathPair) ↔
        p ∈ (createSplit (fun _ => 0) [(1, 2), (3, 4), (5, 6)] 1).1 ∨
        p ∈ (createSplit (fun _ => 0) [(1, 2), (3, 4), (5, 6)] 1).2.1) ∧
     (1 ≤ ([(1, 2), (3, 4), (5, 6)] : List PathPair).length →
        (createSplit (fun _ => 0) [(1, 2), (3, 4), (5, 6)] 1).2.1.length = 1) ∧
     (createSplit (fun _ => 0) [(1, 2), (3, 4), (5, 6)] 1).2.2
        = (createSplit (fun _ => 0) [(1, 2), (3, 4), (5, 6)] 1).1.take 1) :=
  ⟨by decide, createSplit_spec (fun _ => 0) [(1, 2), (3, 4), (5, 6)] 1 (by decide)⟩

theorem ratSqrt_ne_zero {q : ℚ} (h0 : 0 < q) (hs : ratSqrt q * ratSqrt q = q) :
    ratSqrt q ≠ 0 := by
  intro h
  rw [h, zero_mul] at hs
  exact absurd hs.symm (ne_of_gt h0)

theorem ratSqrt_one : ratSqrt 1 = 1 := by
  unfold ratSqrt
  rw [Rat.num_one, Rat.den_one]
  norm_num [natSqrtDown]

theorem entry_zeroUnvoiced (x vcd : Mat ℚ) (t i : Nat) :
    entry (zeroUnvoiced x vcd) t i
      = Option.map₂ (fun a w => if w = 0 then 0 else a) (entry x t i) (entry vcd t i) :=
  entry_zip2 _ x vcd t i

theorem field_norm_denorm {xo mo vo : Option (Mat ℚ)} (hps : posSqrtOpt vo)
    {t i : Nat} {a b c : ℚ}
    (hx : xo.bind (fun m => entry m t i) = some a)
    (hm : mo.bind (fun m => entry m t i) = some b)
    (hv : vo.bind (fun m => entry m t i) = some c) :
    (normField xo mo vo).bind (fun m => entry m t i) = some ((a - b) / ratSqrt c) ∧
    (denormField (normField xo mo vo) mo vo).bind (fun m => entry m t i) = some a := by
  obtain ⟨X, hX, hax⟩ := Option.bind_eq_some.mp hx
  obtain ⟨M, hM, hbm⟩ := Option.bind_eq_some.mp hm
  obtain ⟨V, hV, hcv⟩ := Option.bind_eq_some.mp hv
  subst hX hM hV
  have hsq : 0 < c ∧ ratSqrt c * ratSqrt c = c := by
    obtain ⟨r, hr, hcr⟩ := mem_of_entry hcv
    exact hps r hr c hcr
  have hne : entry (zip2 (fun p q => p / q) (zip2 (fun p q => p - q) X M)
      (mmap ratSqrt V)) t i = some ((a - b) / ratSqrt c) := by
    rw [entry_zip2, entry_zip2, entry_mmap, hax, hbm, hcv]
    rfl
  refine ⟨hne, ?_⟩
  show entry (zip2 (fun p q => p + q)
      (zip2 (fun p q => p * q)
        (zip2 (fun p q => p / q) (zip2 (fun p q => p - q) X M) (mmap ratSqrt V))
        (mmap ratSqrt V)) M) t i = some a
  rw [entry_zip2, entry_zip2, entry_mmap, hne, hbm, hcv]
  show some ((a - b) / ratSqrt c * ratSqrt c + b) = some a
  rw [div_mul_cancel₀ _ (ratSqrt_ne_zero hsq.1 hsq.2)]
  exact congrArg some (by ring)

theorem f0_norm_denorm {xo mo vo wo : Option (Mat ℚ)} (hps : posSqrtOpt vo)
    {t i : Nat} {a b c w : ℚ}
    (hx : xo.bind (fun m => entry m t i) = some a)
    (hm : mo.bind (fun m => entry m t i) = some b)
    (hv : vo.bind (fun m => entry m t i) = some c)
    (hw : wo.bind (fun m => entry m t i) = some w) :
    (w ≠ 0 →
      (normF0 xo mo vo wo).bind (fun m => entry m t i) = some ((a - b) / ratSqrt c) ∧
      (denormF0 (normF0 xo mo vo wo) mo vo wo).bind (fun m => entry m t i) = some a) ∧
    (w = 0 → (normF0 xo mo vo wo).bind (fun m => entry m t i) = some 0) := by
  obtain ⟨X, hX, hax⟩ := Option.bind_eq_some.mp hx
  obtain ⟨M, hM, hbm⟩ := Option.bind_eq_some.mp hm
  obtain ⟨V, hV, hcv⟩ := Option.bind_eq_some.mp hv
  obtain ⟨W, hW, hww⟩ := Option.bind_eq_some.mp hw
  subst hX hM hV hW
  have hsq : 0 < c ∧ ratSqrt c * ratSqrt c = c := by
    obtain ⟨r, hr, hcr⟩ := mem_of_entry hcv
    exact hps r hr c hcr
  have hZe : entry (zip2 (fun p q => p / q) (zip2 (fun p q => p - q) X M)
      (mmap ratSqrt V)) t i = some ((a - b) / ratSqrt c) := by
    rw [entry_zip2, entry_zip2, entry_mmap, hax, hbm, hcv]
    rfl
  have hNe : entry (zeroUnvoiced (zip2 (fun p q => p / q)
      (zip2 (fun p q => p - q) X M) (mmap ratSqrt V)) W) t i
      = some (if w = 0 then 0 else (a - b) / ratSqrt c) := by
    rw [entry_zeroUnvoiced, hZe, hww]
    rfl
  constructor
  · intro hwne
    constructor
    · show entry (zeroUnvoiced (zip2 (fun p q => p / q)
          (zip2 (fun p q => p - q) X M) (mmap ratSqrt V)) W) t i
          = some ((a - b) / ratSqrt c)
      rw [hNe, if_neg hwne]
    · show entry (zeroUnvoiced (zip2 (fun p q => p + q)
          (zip2 (fun p q => p * q)
            (zeroUnvoiced (zip2 (fun p q => p / q) (zip2 (fun p q => p - q) X M)
              (mmap ratSqrt V)) W)
            (mmap ratSqrt V)) M) W) t i = some a
      rw [entry_zeroUnvoiced, entry_zip2, entry_zip2, entry_mmap, hNe, hbm, hcv, hww]
      show some (if w = 0 then 0
          else (if w = 0 then 0 else (a - b) / ratSqrt c) * ratSqrt c + b) = some a
      rw [if_neg hwne, if_neg hwne, div_mul_cancel₀ _ (ratSqrt_ne_zero hsq.1 hsq.2)]
      exact congrArg some (by ring)
  · intro hw0
    show entry (zeroUnvoiced (zip2 (fun p q => p / q)
        (zip2 (fun p q => p - q) X M) (mmap ratSqrt V)) W) t i = some 0
    rw [hNe, if_pos hw0]

/-- Claim C3: normalization computes the elementwise value minus mean over
square root of variance per field, forces f0 to exactly zero at unvoiced
frames and passes the voiced flag through unchanged; denormalizing the
result with the same mean and variance restores every present entry, on
voiced frames for f0 and at every frame for the other numeric fields, in
the exact rational embedding whenever the variance entries are positive
with exact square roots. -/
theorem normalize_denormalize_roundtrip (mean var d : AcousticFeature ℚ)
    (hvf : posSqrtOpt var.f0) (hvs : posSqrtOpt var.spectrogram)
    (hva : posSqrtOpt var.aperiodicity) (hvm : posSqrtOpt var.mfcc) :
    (AcousticFeatureNormalizeProcess.call mean var d).voiced = d.voiced ∧
    (normThenDenorm mean var d).voiced = d.voiced ∧
    (∀ n, n = FieldName.spectrogram ∨ n = FieldName.aperiodicity ∨ n = FieldName.mfcc →
      ∀ t i a b c, fentry d n t i = some a → fentry mean n t i = some b →
        fentry var n t i = some c →
        fentry (AcousticFeatureNormalizeProcess.call mean var d) n t i
            = some ((a - b) / ratSqrt c) ∧
        fentry (normThenDenorm mean var d) n t i = some a) ∧
    (∀ t i a b c w, fentry d FieldName.f0 t i = some a →
        fentry mean FieldName.f0 t i = some b → fentry var FieldName.f0 t i = some c →
        fentry d FieldName.voiced t i = some w →
        (w ≠ 0 →
          fentry (AcousticFeatureNormalizeProcess.call mean var d) FieldName.f0 t i
              = some ((a - b) / ratSqrt c) ∧
          fentry (normThenDenorm mean var d) FieldName.f0 t i = some a) ∧
        (w = 0 →
          fentry (AcousticFeatureNormalizeProcess.call mean var d) FieldName.f0 t i
              = some 0)) := by
  refine ⟨rfl, rfl, ?_, ?_⟩
  · rintro n (rfl | rfl | rfl) t i a b c hx hm hv
    · exact field_norm_denorm hvs hx hm hv
    · exact field_norm_denorm hva hx hm hv
    · exact field_norm_denorm hvm hx hm hv
  · intro t i a b c w hx hm hv hw
    exact f0_norm_denorm hvf hx hm hv hw

/-- Witness for normalize_denormalize_roundtrip at a concrete two-frame
feature with one voiced and one unvoiced frame and unit variance. -/
theorem normalize_denormalize_roundtrip_witness :
    (posSqrtOpt exVar.f0 ∧ posSqrtOpt exVar.spectrogram ∧
     posSqrtOpt exVar.aperiodicity ∧ posSqrtOpt exVar.mfcc) ∧
    ((AcousticFeatureNormalizeProcess.call exMean exVar exData).voiced = exData.voiced ∧
     (normThenDenorm exMean exVar exData).voiced = exData.voiced ∧
     (∀ n, n = FieldName.spectrogram ∨ n = FieldName.aperiodicity ∨ n = FieldName.mfcc →
       ∀ t i a b c, fentry exData n t i = some a → fentry exMean n t i = some b →
         fentry exVar n t i = some c →
         fentry (AcousticFeatureNormalizeProcess.call exMean exVar exData) n t i
             = some ((a - b) / ratSqrt c) ∧
         fentry (normThenDenorm exMean exVar exData) n t i = some a) ∧
     (∀ t i a b c w, fentry exData FieldName.f0 t i = some a →
         fentry exMean FieldName.f0 t i = some b →
         fentry exVar FieldName.f0 t i = some c →
         fentry exData FieldName.voiced t i = some w →
         (w ≠ 0 →
           fentry (AcousticFeatureNormalizeProcess.call exMean exVar exData) FieldName.f0 t i
               = some ((a - b) / ratSqrt c) ∧
           fentry (normThenDenorm exMean exVar exData) FieldName.f0 t i = some a) ∧
         (w = 0 →
           fentry (AcousticFeatureNormalizeProcess.call exMean exVar exData) FieldName.f0 t i
               = some 0))) :=
  ⟨⟨by simp [exVar, posSqrtOpt, posSqrtMat, ratSqrt_one],
    by simp [exVar, posSqrtOpt, posSqrtMat, ratSqrt_one],
    by simp [exVar, posSqrtOpt, posSqrtMat, ratSqrt_one],
    by simp [exVar, posSqrtOpt, posSqrtMat, ratSqrt_one]⟩,
   normalize_denormalize_roundtrip exMean exVar exData
     (by simp [exVar, posSqrtOpt, posSqrtMat, ratSqrt_one])
     (by simp [exVar, posSqrtOpt, posSqrtMat, ratSqrt_one])
     (by simp [exVar, posSqrtOpt, posSqrtMat, ratSqrt_one])
     (by simp [exVar, posSqrtOpt, posSqrtMat, ratSqrt_one])⟩
